import Mathlib

/-!
Verification of the job-orchestration and request-safety layer of the
`rag-service` repository (`scripts/raganything_service.py`).

The Python source is shallowly embedded: each class becomes a structure, each
method a pure function threading the state explicitly, wall-clock instants are
integers (seconds), `collections.deque(maxlen=n)` becomes a list truncated to
its last `n` elements on append, and Python dicts become association lists.
Components that the repository's tests exercise but that are absent from the
source copy (the webhook sanitizer, the shared-secret authentication gate and
the rate-limiter stale-bucket sweep) are modelled from the specification; each
such definition carries a doc comment saying so.
-/

/-- Append to a `deque(maxlen := m)`: the element is appended to the right and
the list is truncated to its last `m` elements. -/
def dequeAppend (m : Nat) (xs : List α) (x : α) : List α :=
  let ys := xs ++ [x]
  ys.drop (ys.length - m)

/-- Lookup in a Python dict modelled as an association list. -/
def assocFind (m : List (String × α)) (k : String) : Option α :=
  (m.find? (fun p => p.1 = k)).map (·.2)

/-- Insert-or-overwrite in a Python dict modelled as an association list
(`d[k] = v`). -/
def assocSet : List (String × α) → String → α → List (String × α)
  | [], k, v => [(k, v)]
  | (k', v') :: rest, k, v =>
    if k' = k then (k, v) :: rest else (k', v') :: assocSet rest k v

/-- Mutation of the object stored under key `k`, if present (Python aliasing:
the dict entry and the local variable reference the same object). -/
def assocUpdate (m : List (String × α)) (k : String) (v : α) : List (String × α) :=
  m.map (fun p => if p.1 = k then (k, v) else p)

/-- Removal of key `k` (`d.pop(k)`). -/
def assocErase (m : List (String × α)) (k : String) : List (String × α) :=
  m.filter (fun p => ¬ p.1 = k)

theorem assocFind_assocSet (m : List (String × α)) (k : String) (v : α) :
    assocFind (assocSet m k v) k = some v := by
  induction m with
  | nil => simp [assocFind, assocSet, List.find?]
  | cons hd tl ih =>
    by_cases h : hd.1 = k
    · simp [assocFind, assocSet, h, List.find?]
    · simpa [assocFind, assocSet, h, List.find?] using ih

theorem assocFind_cons_ne (hd : String × α) (tl : List (String × α)) (k : String)
    (h : ¬ hd.1 = k) : assocFind (hd :: tl) k = assocFind tl k := by
  simp [assocFind, List.find?, h]

theorem assocFind_assocUpdate (m : List (String × α)) (k : String) (v w : α)
    (h : assocFind m k = some v) :
    assocFind (assocUpdate m k w) k = some w := by
  induction m with
  | nil => simp [assocFind] at h
  | cons hd tl ih =>
    by_cases hk : hd.1 = k
    · simp [assocFind, assocUpdate, hk, List.find?]
    · rw [assocFind_cons_ne hd tl k hk] at h
      have : assocUpdate (hd :: tl) k w = hd :: assocUpdate tl k w := by
        simp [assocUpdate, hk]
      rw [this, assocFind_cons_ne hd _ k hk]
      exact ih h

/-! ## CircuitBreaker (source lines 392-444) -/

inductive CBState where
  | closed
  | opened
  | halfOpen
deriving DecidableEq, Repr

/-- `CircuitBreaker.__init__`: `failures = deque(maxlen=10)`, `state = "closed"`,
`last_failure_time = None`. -/
structure CircuitBreaker where
  failure_threshold : Nat
  recovery_timeout : Int
  failures : List Int
  state : CBState
  last_failure_time : Option Int
deriving DecidableEq, Repr

def CircuitBreaker.init (ft : Nat) (rt : Int) : CircuitBreaker :=
  { failure_threshold := ft, recovery_timeout := rt,
    failures := [], state := .closed, last_failure_time := none }

/-- `record_failure`: append `now` to the bounded deque, set
`last_failure_time`, and open the breaker when the failures of the last
5 minutes (300 s) in the deque reach the threshold. -/
def CircuitBreaker.record_failure (cb : CircuitBreaker) (now : Int) : CircuitBreaker :=
  let failures := dequeAppend 10 cb.failures now
  let recent := failures.filter (fun f => now - f < 300)
  { cb with
    failures := failures
    last_failure_time := some now
    state := if cb.failure_threshold ≤ recent.length then .opened else cb.state }

/-- `record_success`: unconditionally `state = "closed"`. -/
def CircuitBreaker.record_success (cb : CircuitBreaker) : CircuitBreaker :=
  { cb with state := .closed }

/-- `can_proceed`: closed allows; opened allows (and flips to half-open) once
`recovery_timeout` seconds elapsed since the last failure; half-open allows. -/
def CircuitBreaker.can_proceed (cb : CircuitBreaker) (now : Int) : Bool × CircuitBreaker :=
  match cb.state with
  | .closed => (true, cb)
  | .opened =>
    match cb.last_failure_time with
    | some lf =>
      if cb.recovery_timeout ≤ now - lf then (true, { cb with state := .halfOpen })
      else (false, cb)
    | none => (false, cb)
  | .halfOpen => (true, cb)

/-- A sequence of `record_failure` calls at the given instants. -/
def CircuitBreaker.applyFailures (cb : CircuitBreaker) (ts : List Int) : CircuitBreaker :=
  ts.foldl CircuitBreaker.record_failure cb

theorem dequeAppend_length (m : Nat) (xs : List α) (x : α) (h : xs.length ≤ m) :
    (dequeAppend m xs x).length = min (xs.length + 1) m := by
  simp only [dequeAppend, List.length_drop, List.length_append, List.length_cons,
    List.length_nil]
  omega

theorem dequeAppend_subset (m : Nat) (xs : List α) (x : α) :
    ∀ y ∈ dequeAppend m xs x, y ∈ xs ++ [x] := by
  intro y hy
  exact List.mem_of_mem_drop hy

theorem applyFailures_failures_length (ft : Nat) (rt : Int) (ts : List Int) :
    ((CircuitBreaker.init ft rt).applyFailures ts).failures.length = min ts.length 10 := by
  suffices h : ∀ (ts : List Int) (cb : CircuitBreaker), cb.failures.length ≤ 10 →
      (cb.applyFailures ts).failures.length = min (cb.failures.length + ts.length) 10 by
    simpa [CircuitBreaker.init] using h ts (CircuitBreaker.init ft rt) (by simp [CircuitBreaker.init])
  intro ts
  induction ts with
  | nil => intro cb h; simp [CircuitBreaker.applyFailures]; omega
  | cons t rest ih =>
    intro cb h
    have hstep : (cb.record_failure t).failures.length = min (cb.failures.length + 1) 10 := by
      simpa [CircuitBreaker.record_failure] using dequeAppend_length 10 cb.failures t h
    have h' : (cb.record_failure t).failures.length ≤ 10 := by omega
    have := ih (cb.record_failure t) h'
    simp only [CircuitBreaker.applyFailures, List.foldl_cons] at *
    rw [this, hstep]
    simp only [List.length_cons]
    omega

theorem applyFailures_mem (cb : CircuitBreaker) (ts : List Int) :
    ∀ y ∈ (cb.applyFailures ts).failures, y ∈ cb.failures ∨ y ∈ ts := by
  induction ts generalizing cb with
  | nil => intro y hy; exact Or.inl hy
  | cons t rest ih =>
    intro y hy
    simp only [CircuitBreaker.applyFailures, List.foldl_cons] at hy
    rcases ih (cb.record_failure t) y hy with h | h
    · have := dequeAppend_subset 10 cb.failures t y (by simpa [CircuitBreaker.record_failure] using h)
      rcases List.mem_append.mp this with h' | h'
      · exact Or.inl h'
      · simp at h'; subst h'; exact Or.inr (by simp)
    · exact Or.inr (by simp [h])

theorem applyFailures_last (cb : CircuitBreaker) (ts : List Int) (t : Int) :
    (cb.applyFailures (ts ++ [t])).last_failure_time = some t := by
  have : cb.applyFailures (ts ++ [t]) = (cb.applyFailures ts).record_failure t := by
    simp [CircuitBreaker.applyFailures]
  rw [this]
  simp [CircuitBreaker.record_failure]

theorem record_failure_opens (cb : CircuitBreaker) (t : Int)
    (hlen : cb.failures.length ≤ 10)
    (hmem : ∀ s ∈ cb.failures, t - s < 300)
    (hT10 : cb.failure_threshold ≤ 10)
    (hT : cb.failure_threshold ≤ cb.failures.length + 1) :
    (cb.record_failure t).state = .opened := by
  have hall : ∀ y ∈ dequeAppend 10 cb.failures t, t - y < 300 := by
    intro y hy
    rcases List.mem_append.mp (dequeAppend_subset 10 cb.failures t y hy) with h | h
    · exact hmem y h
    · simp at h; subst h; omega
  have hfilter : (dequeAppend 10 cb.failures t).filter (fun f => t - f < 300)
      = dequeAppend 10 cb.failures t :=
    List.filter_eq_self.mpr (fun a ha => by simpa using hall a ha)
  have hlen' : (dequeAppend 10 cb.failures t).length = min (cb.failures.length + 1) 10 :=
    dequeAppend_length 10 cb.failures t hlen
  simp only [CircuitBreaker.record_failure, hfilter, hlen']
  have : cb.failure_threshold ≤ min (cb.failures.length + 1) 10 := by omega
  simp [this]

/-- C6 (amended): provided the failure threshold does not exceed the bound 10 of
the failure deque, a run of at least `failure_threshold` `record_failure` calls
whose instants all lie within the trailing 5-minute window of the last call
opens the breaker; `can_proceed` then returns `false` while less than
`recovery_timeout` seconds have elapsed since the last failure, returns `true`
and flips the state to half-open once at least `recovery_timeout` seconds have
elapsed, and `record_success` in any state makes the state closed. -/
theorem C6_circuit_breaker_lifecycle
    (T : Nat) (R : Int) (ts : List Int) (t now1 now2 : Int)
    (hT10 : T ≤ 10)
    (hcount : T ≤ ts.length + 1)
    (hwin : ∀ s ∈ ts, t - s < 300)
    (h1 : now1 - t < R) (h2 : R ≤ now2 - t) :
    ((CircuitBreaker.init T R).applyFailures (ts ++ [t])).state = .opened ∧
    ((((CircuitBreaker.init T R).applyFailures (ts ++ [t])).can_proceed now1).1 = false) ∧
    (((CircuitBreaker.init T R).applyFailures (ts ++ [t])).can_proceed now2
      = (true, { (CircuitBreaker.init T R).applyFailures (ts ++ [t]) with state := .halfOpen })) ∧
    (∀ cb : CircuitBreaker, cb.record_success.state = .closed) := by
  set cb0 := (CircuitBreaker.init T R).applyFailures ts with hcb0
  have hsplit : (CircuitBreaker.init T R).applyFailures (ts ++ [t]) = cb0.record_failure t := by
    simp [CircuitBreaker.applyFailures, hcb0]
  have hlen0 : cb0.failures.length ≤ 10 := by
    rw [hcb0, applyFailures_failures_length]; omega
  have hmem0 : ∀ s ∈ cb0.failures, t - s < 300 := by
    intro s hs
    rcases applyFailures_mem (CircuitBreaker.init T R) ts s (by simpa [hcb0] using hs) with h | h
    · simp [CircuitBreaker.init] at h
    · exact hwin s h
  have hthr : cb0.failure_threshold = T := by
    rw [hcb0]
    have : ∀ (us : List Int) (cb : CircuitBreaker),
        (cb.applyFailures us).failure_threshold = cb.failure_threshold := by
      intro us
      induction us with
      | nil => intro cb; rfl
      | cons u rest ih =>
        intro cb
        simpa [CircuitBreaker.applyFailures, CircuitBreaker.record_failure]
          using ih (cb.record_failure u)
    simp [this, CircuitBreaker.init]
  have hlenT : cb0.failure_threshold ≤ cb0.failures.length + 1 := by
    rw [hthr, hcb0, applyFailures_failures_length]; omega
  have hopen : (cb0.record_failure t).state = .opened :=
    record_failure_opens cb0 t hlen0 hmem0 (hthr ▸ hT10) hlenT
  have hlast : (cb0.record_failure t).last_failure_time = some t := by
    simp [CircuitBreaker.record_failure]
  have hrt : (cb0.record_failure t).recovery_timeout = R := by
    have : ∀ (us : List Int) (cb : CircuitBreaker),
        (cb.applyFailures us).recovery_timeout = cb.recovery_timeout := by
      intro us
      induction us with
      | nil => intro cb; rfl
      | cons u rest ih =>
        intro cb
        simpa [CircuitBreaker.applyFailures, CircuitBreaker.record_failure]
          using ih (cb.record_failure u)
    simp [CircuitBreaker.record_failure, hcb0, this, CircuitBreaker.init]
  refine ⟨hsplit ▸ hopen, ?_, ?_, fun cb => rfl⟩
  · rw [hsplit]
    simp only [CircuitBreaker.can_proceed, hopen, hlast, hrt]
    have : ¬ R ≤ now1 - t := by omega
    simp [this]
  · rw [hsplit]
    simp only [CircuitBreaker.can_proceed, hopen, hlast, hrt]
    simp [h2]

/-- Witness for C6: threshold 2, recovery 300 s, failures at instants 0 and 10,
probes at 100 s (refused) and 400 s (half-open). -/
theorem C6_circuit_breaker_lifecycle_witness :
    (((CircuitBreaker.init 2 300).applyFailures ([0] ++ [10])).state = .opened) ∧
    ((((CircuitBreaker.init 2 300).applyFailures ([0] ++ [10])).can_proceed 100).1 = false) := by
  have h := C6_circuit_breaker_lifecycle 2 300 [0] 10 100 400
    (by decide) (by decide) (by decide) (by decide) (by decide)
  exact ⟨h.1, h.2.1⟩

/-- Counterexample to C6 as stated: with `failure_threshold = 11`, eleven
`record_failure` calls all within the trailing 5-minute window do not open the
breaker (the deque holds at most 10 entries), and `can_proceed` still returns
`true`. -/
theorem C6_counterexample :
    ((((CircuitBreaker.init 11 300).applyFailures
        [0, 1, 2, 3, 4, 5, 6, 7, 8, 9, 10]).can_proceed 10).1 = true) ∧
    ((CircuitBreaker.init 11 300).applyFailures
        [0, 1, 2, 3, 4, 5, 6, 7, 8, 9, 10]).state ≠ .opened := by
  decide

theorem record_failure_keeps_closed (cb : CircuitBreaker) (t : Int)
    (hT : 10 < cb.failure_threshold) (hlen : cb.failures.length ≤ 10)
    (hst : cb.state ≠ .opened) : (cb.record_failure t).state ≠ .opened := by
  have hlen' : (dequeAppend 10 cb.failures t).length ≤ 10 := by
    have := dequeAppend_length 10 cb.failures t hlen
    omega
  have hfl : ((dequeAppend 10 cb.failures t).filter (fun f => t - f < 300)).length ≤ 10 :=
    le_trans (List.length_filter_le _ _) hlen'
  have hlt : ¬ cb.failure_threshold ≤
      ((dequeAppend 10 cb.failures t).filter (fun f => t - f < 300)).length := by omega
  simpa [CircuitBreaker.record_failure, hlt] using hst

/-- C10: the failure log is a deque bounded at 10 entries, so the count of
failures visible in any trailing window never exceeds 10; hence with
`failure_threshold > 10` the open state is unreachable through
`record_failure` alone. -/
theorem C10_open_unreachable_above_deque_bound
    (T : Nat) (R : Int) (ts : List Int) (hT : 10 < T) :
    ((CircuitBreaker.init T R).applyFailures ts).failures.length ≤ 10 ∧
    (∀ now : Int,
      ((((CircuitBreaker.init T R).applyFailures ts).failures.filter
        (fun f => now - f < 300)).length ≤ 10)) ∧
    ((CircuitBreaker.init T R).applyFailures ts).state ≠ .opened := by
  have hinv : ∀ (us : List Int) (cb : CircuitBreaker),
      10 < cb.failure_threshold → cb.failures.length ≤ 10 → cb.state ≠ .opened →
      (cb.applyFailures us).failures.length ≤ 10 ∧
        10 < (cb.applyFailures us).failure_threshold ∧
        (cb.applyFailures us).state ≠ .opened := by
    intro us
    induction us with
    | nil => intro cb h1 h2 h3; exact ⟨h2, h1, h3⟩
    | cons u rest ih =>
      intro cb h1 h2 h3
      have hlen' : (cb.record_failure u).failures.length ≤ 10 := by
        have := dequeAppend_length 10 cb.failures u h2
        simp only [CircuitBreaker.record_failure]
        omega
      have hthr' : 10 < (cb.record_failure u).failure_threshold := by
        simpa [CircuitBreaker.record_failure] using h1
      have hst' : (cb.record_failure u).state ≠ .opened :=
        record_failure_keeps_closed cb u h1 h2 h3
      simpa [CircuitBreaker.applyFailures] using ih (cb.record_failure u) hthr' hlen' hst'
  have h := hinv ts (CircuitBreaker.init T R) (by simpa [CircuitBreaker.init] using hT)
    (by simp [CircuitBreaker.init]) (by simp [CircuitBreaker.init])
  exact ⟨h.1, fun now => le_trans (List.length_filter_le _ _) h.1, h.2.2⟩

/-- Witness for C10: threshold 11, twelve failures in quick succession leave
the breaker closed. -/
theorem C10_open_unreachable_above_deque_bound_witness :
    ((CircuitBreaker.init 11 300).applyFailures
        [0, 0, 1, 1, 2, 2, 3, 3, 4, 4, 5, 5]).state ≠ .opened := by
  exact (C10_open_unreachable_above_deque_bound 11 300
    [0, 0, 1, 1, 2, 2, 3, 3, 4, 4, 5, 5] (by decide)).2.2

/-! ## IpRateLimiter (source lines 447-471) -/

/-- `IpRateLimiter.__init__`: per-client sliding-window limiter; `_requests`
is a `defaultdict(deque)` modelled as an association list defaulting to the
empty bucket. -/
structure IpRateLimiter where
  max_requests : Int
  window_sec : Int
  requests : List (String × List Int)
deriving DecidableEq, Repr

def mkIpRateLimiter (maxReq window : Int) : IpRateLimiter :=
  { max_requests := maxReq, window_sec := window, requests := [] }

/-- The eviction loop `while bucket and (now - bucket[0]) >= self.window_sec:
bucket.popleft()`. -/
def evictStale (now window : Int) : List Int → List Int
  | [] => []
  | t :: ts => if window ≤ now - t then evictStale now window ts else t :: ts

/-- The bucket of a client, defaulting to the empty deque. -/
def bucketOf (rl : IpRateLimiter) (client : String) : List Int :=
  (assocFind rl.requests client).getD []

/-- The per-bucket body of `allow`: evict stale entries from the front, then
either deny with `retry_after = max(1, window_sec - (now - bucket[0]))` when
the bucket is full, or append the request instant and admit. -/
def bucketStep (maxReq window : Int) (bucket : List Int) (now : Int) :
    (Bool × Int) × List Int :=
  let b := evictStale now window bucket
  if maxReq ≤ (b.length : Int) then
    ((false, max 1 (window - (now - b.headD 0))), b)
  else
    ((true, 0), b ++ [now])

/-- `IpRateLimiter.allow`: limiting disabled when `max_requests <= 0` or
`window_sec <= 0`; otherwise run the bucket step on the client's bucket. -/
def IpRateLimiter.allow (rl : IpRateLimiter) (client : String) (now : Int) :
    (Bool × Int) × IpRateLimiter :=
  if rl.max_requests ≤ 0 ∨ rl.window_sec ≤ 0 then ((true, 0), rl)
  else
    let bucket := bucketOf rl client
    let r := bucketStep rl.max_requests rl.window_sec bucket now
    (r.1, { rl with requests := assocSet rl.requests client r.2 })

/-- A sequence of `allow` calls from the same client at the given instants,
collecting the returned verdicts. -/
def IpRateLimiter.applyAllows (rl : IpRateLimiter) (client : String) :
    List Int → List (Bool × Int) × IpRateLimiter
  | [] => ([], rl)
  | t :: ts =>
    let r := rl.allow client t
    let rest := (r.2).applyAllows client ts
    (r.1 :: rest.1, rest.2)

theorem applyAllows_nil (rl : IpRateLimiter) (c : String) :
    rl.applyAllows c [] = ([], rl) := rfl

theorem applyAllows_cons (rl : IpRateLimiter) (c : String) (t : Int) (ts : List Int) :
    rl.applyAllows c (t :: ts) =
      (((rl.allow c t).1 :: ((rl.allow c t).2.applyAllows c ts).1),
        ((rl.allow c t).2.applyAllows c ts).2) := rfl

theorem evictStale_of_fresh (now window : Int) (b : List Int)
    (h : ∀ s ∈ b, now - s < window) : evictStale now window b = b := by
  cases b with
  | nil => rfl
  | cons t ts =>
    have : ¬ window ≤ now - t := by
      have := h t (by simp)
      omega
    simp [evictStale, this]

theorem evictStale_length_le (now window : Int) (b : List Int) :
    (evictStale now window b).length ≤ b.length := by
  induction b with
  | nil => simp [evictStale]
  | cons t ts ih =>
    by_cases h : window ≤ now - t
    · simp only [evictStale, if_pos h, List.length_cons]
      omega
    · simp [evictStale, if_neg h]

theorem allow_fields (rl : IpRateLimiter) (c : String) (t : Int) :
    ((rl.allow c t).2.max_requests = rl.max_requests) ∧
    ((rl.allow c t).2.window_sec = rl.window_sec) := by
  by_cases h : rl.max_requests ≤ 0 ∨ rl.window_sec ≤ 0
  · simp [IpRateLimiter.allow, h]
  · simp [IpRateLimiter.allow, h]

theorem applyAllows_run_ok (c : String) :
    ∀ (todo : List Int) (rl : IpRateLimiter),
      0 < rl.max_requests → 0 < rl.window_sec →
      ((bucketOf rl c).length : Int) + todo.length ≤ rl.max_requests →
      (∀ s ∈ bucketOf rl c, ∀ t ∈ todo, t - s < rl.window_sec) →
      List.Pairwise (fun a b => b - a < rl.window_sec) todo →
      (rl.applyAllows c todo).1 = todo.map (fun _ => ((true : Bool), (0 : Int))) ∧
      bucketOf (rl.applyAllows c todo).2 c = bucketOf rl c ++ todo ∧
      (rl.applyAllows c todo).2.max_requests = rl.max_requests ∧
      (rl.applyAllows c todo).2.window_sec = rl.window_sec := by
  intro todo
  induction todo with
  | nil =>
    intro rl _ _ _ _ _
    simp [applyAllows_nil]
  | cons t rest ih =>
    intro rl hN hW hlen hfresh hpair
    have hnd : ¬ (rl.max_requests ≤ 0 ∨ rl.window_sec ≤ 0) := by omega
    have hev : evictStale t rl.window_sec (bucketOf rl c) = bucketOf rl c :=
      evictStale_of_fresh t rl.window_sec (bucketOf rl c)
        (fun s hs => hfresh s hs t (by simp))
    have hnotfull : ¬ rl.max_requests ≤ ((bucketOf rl c).length : Int) := by
      simp only [List.length_cons] at hlen
      push_cast at hlen ⊢
      omega
    have hstep : rl.allow c t
        = ((true, 0), { rl with requests := assocSet rl.requests c (bucketOf rl c ++ [t]) }) := by
      simp [IpRateLimiter.allow, hnd, bucketStep, hev, hnotfull]
    set rl' : IpRateLimiter :=
      { rl with requests := assocSet rl.requests c (bucketOf rl c ++ [t]) } with hrl'
    have hbucket' : bucketOf rl' c = bucketOf rl c ++ [t] := by
      simp [bucketOf, hrl', assocFind_assocSet]
    have hfields : rl'.max_requests = rl.max_requests ∧ rl'.window_sec = rl.window_sec := by
      simp [hrl']
    have hpair' := List.pairwise_cons.mp hpair
    have ihres := ih rl' (by rw [hfields.1]; exact hN) (by rw [hfields.2]; exact hW)
      (by
        rw [hbucket', hfields.1]
        simp only [List.length_append, List.length_cons, List.length_nil] at *
        push_cast at hlen ⊢
        omega)
      (by
        intro s hs u hu
        rw [hfields.2]
        rcases List.mem_append.mp (hbucket' ▸ hs) with h | h
        · exact hfresh s h u (by simp [hu])
        · simp at h; subst h
          exact hpair'.1 u hu)
      (by rw [hfields.2]; exact hpair'.2)
    refine ⟨?_, ?_, ?_, ?_⟩
    · rw [applyAllows_cons, hstep]
      simp only [List.map_cons]
      exact congrArg _ ihres.1
    · rw [applyAllows_cons, hstep]
      simp only
      rw [ihres.2.1, hbucket']
      simp
    · rw [applyAllows_cons, hstep]
      simpa [hfields.1] using ihres.2.2.1
    · rw [applyAllows_cons, hstep]
      simpa [hfields.2] using ihres.2.2.2

theorem applyAllows_append (rl : IpRateLimiter) (c : String) (xs ys : List Int) :
    rl.applyAllows c (xs ++ ys) =
      ((rl.applyAllows c xs).1 ++ (((rl.applyAllows c xs).2).applyAllows c ys).1,
        (((rl.applyAllows c xs).2).applyAllows c ys).2) := by
  induction xs generalizing rl with
  | nil => simp [applyAllows_nil]
  | cons x rest ih =>
    simp only [List.cons_append, applyAllows_cons, ih ((rl.allow c x).2), List.cons_append]


/-- C7: with `max_requests = N > 0` and `window_sec = W > 0`, starting from a
fresh limiter, `N` calls within one window from a client all succeed, the
`(N+1)`-th call within the window is denied with `retry_after` of at least 1,
and a call made at least `W` after the first one is allowed again; with
`max_requests = 0` or `window_sec = 0` every call is allowed and the limiter
state is untouched. -/
theorem C7_rate_limiter_window (N W : Int) (c : String) (t1 : Int) (rest : List Int)
    (t2 t3 : Int)
    (hN : 0 < N) (hW : 0 < W)
    (hlen : ((t1 :: rest).length : Int) = N)
    (hpair : List.Pairwise (fun a b => b - a < W) (t1 :: rest))
    (h2 : t2 - t1 < W) (h3 : W ≤ t3 - t1) :
    ((mkIpRateLimiter N W).applyAllows c ((t1 :: rest) ++ [t2, t3])).1
      = (t1 :: rest).map (fun _ => ((true : Bool), (0 : Int)))
        ++ [(false, max 1 (W - (t2 - t1))), (true, 0)] ∧
    1 ≤ max 1 (W - (t2 - t1)) ∧
    (∀ (rl : IpRateLimiter) (d : String) (now : Int),
      rl.max_requests = 0 ∨ rl.window_sec = 0 → rl.allow d now = ((true, 0), rl)) := by
  have hbase : bucketOf (mkIpRateLimiter N W) c = [] := by
    simp [bucketOf, mkIpRateLimiter, assocFind]
  have hcap : ((bucketOf (mkIpRateLimiter N W) c).length : Int)
      + ((t1 :: rest).length : Int) ≤ (mkIpRateLimiter N W).max_requests := by
    rw [hbase]
    simpa using le_of_eq hlen
  have hrun := applyAllows_run_ok c (t1 :: rest) (mkIpRateLimiter N W) hN hW hcap
    (by rw [hbase]; intro s hs; simp at hs) hpair
  rcases hsnd : ((mkIpRateLimiter N W).applyAllows c (t1 :: rest)).2 with ⟨M1, W1, reqs1⟩
  rw [hsnd] at hrun
  have hM1 : M1 = N := hrun.2.2.1
  have hW1 : W1 = W := hrun.2.2.2
  rw [hM1, hW1] at hsnd
  have hb1 : bucketOf ⟨N, W, reqs1⟩ c = t1 :: rest := by
    have h := hrun.2.1
    rw [hbase] at h
    simpa [bucketOf] using h
  have hnd : ¬ (N ≤ (0 : Int) ∨ W ≤ (0 : Int)) := by omega
  have hev2 : evictStale t2 W (t1 :: rest) = t1 :: rest := by
    have h : ¬ W ≤ t2 - t1 := by omega
    simp [evictStale, h]
  have hfull : N ≤ ((t1 :: rest).length : Int) := le_of_eq hlen.symm
  have hstep2 : IpRateLimiter.allow ⟨N, W, reqs1⟩ c t2
      = ((false, max 1 (W - (t2 - t1))), ⟨N, W, assocSet reqs1 c (t1 :: rest)⟩) := by
    simp only [IpRateLimiter.allow, hb1, bucketStep, hev2]
    rw [if_neg hnd, if_pos hfull]
    simp
  have hb2 : bucketOf ⟨N, W, assocSet reqs1 c (t1 :: rest)⟩ c = t1 :: rest := by
    simp [bucketOf, assocFind_assocSet]
  have hev3 : evictStale t3 W (t1 :: rest) = evictStale t3 W rest := by
    simp [evictStale, h3]
  have hnf : ¬ N ≤ ((evictStale t3 W (t1 :: rest)).length : Int) := by
    rw [hev3]
    have hle := evictStale_length_le t3 W rest
    have hlen' : ((t1 :: rest).length : Int) = N := hlen
    simp only [List.length_cons] at hlen'
    push_cast at hlen' ⊢
    omega
  have hstep3 : (IpRateLimiter.allow ⟨N, W, assocSet reqs1 c (t1 :: rest)⟩ c t3).1
      = (true, 0) := by
    simp only [IpRateLimiter.allow, hb2, bucketStep]
    rw [if_neg hnd, if_neg hnf]
  refine ⟨?_, le_max_left 1 _, ?_⟩
  · rw [applyAllows_append, hrun.1, hsnd]
    rw [applyAllows_cons, hstep2]
    rw [applyAllows_cons, hstep3, applyAllows_nil]
  · intro rl d now h
    have hle : rl.max_requests ≤ 0 ∨ rl.window_sec ≤ 0 := by
      rcases h with h | h
      · exact Or.inl (le_of_eq h)
      · exact Or.inr (le_of_eq h)
    simp [IpRateLimiter.allow, hle]

/-- Witness for C7: `N = 2`, `W = 60`, calls at instants 0, 1 (allowed),
2 (denied with retry-after 58) and 61 (allowed again). -/
theorem C7_rate_limiter_window_witness :
    ((mkIpRateLimiter 2 60).applyAllows "ip" ([0, 1] ++ [2, 61])).1
      = [(true, 0), (true, 0), (false, 58), (true, 0)] := by
  have h := C7_rate_limiter_window 2 60 "ip" 0 [1] 2 61 (by decide) (by decide)
    (by decide) (by decide) (by decide) (by decide)
  rw [h.1]
  decide

/-! ## Rate-limiter stale-bucket sweep (claim C4)

The repository's tests exercise a stale-bucket purge of `IpRateLimiter`
(`test_ip_rate_limiter_evicts_stale_buckets`), but the method carrying it is
absent from the source copy; it is modelled here from the specification. -/

def keysOf (m : List (String × α)) : List String :=
  m.map (fun p => p.1)

theorem mem_keysOf_assocSet (m : List (String × α)) (k a : String) (v : α)
    (h : a ∈ keysOf (assocSet m k v)) : a ∈ keysOf m ∨ a = k := by
  induction m with
  | nil => simp [keysOf, assocSet] at h; exact Or.inr h
  | cons hd tl ih =>
    by_cases hk : hd.1 = k
    · simp [keysOf, assocSet, hk] at h ⊢
      tauto
    · simp [keysOf, assocSet, hk] at h ⊢
      rcases h with h | h
      · tauto
      · rcases ih (by simpa [keysOf] using h) with h' | h'
        · simp [keysOf] at h'; tauto
        · tauto

theorem keysOf_assocSet_nodup (m : List (String × α)) (k : String) (v : α)
    (h : (keysOf m).Nodup) : (keysOf (assocSet m k v)).Nodup := by
  induction m with
  | nil => simp [keysOf, assocSet]
  | cons hd tl ih =>
    simp only [keysOf, List.map_cons, List.nodup_cons] at h
    by_cases hk : hd.1 = k
    · rw [show assocSet (hd :: tl) k v = (k, v) :: tl by simp [assocSet, hk]]
      simp only [keysOf, List.map_cons, List.nodup_cons]
      exact ⟨by rw [← hk]; simpa [keysOf] using h.1, h.2⟩
    · have htl := ih h.2
      simp only [assocSet, if_neg hk, keysOf, List.map_cons, List.nodup_cons]
      refine ⟨?_, htl⟩
      intro hmem
      rcases mem_keysOf_assocSet tl k hd.1 v (by simpa [keysOf] using hmem) with h' | h'
      · exact h.1 (by simpa [keysOf] using h')
      · exact hk h'

theorem mem_assocSet (m : List (String × α)) (k : String) (v : α) :
    ∀ p ∈ assocSet m k v, p ∈ m ∨ p = (k, v) := by
  induction m with
  | nil => intro p hp; simp [assocSet] at hp; exact Or.inr hp
  | cons hd tl ih =>
    intro p hp
    by_cases hk : hd.1 = k
    · simp [assocSet, hk] at hp
      rcases hp with h | h
      · exact Or.inr h
      · exact Or.inl (by simp [h])
    · simp only [assocSet, if_neg hk, List.mem_cons] at hp
      rcases hp with h | h
      · exact Or.inl (by simp [h])
      · rcases ih p h with h' | h'
        · exact Or.inl (by simp [h'])
        · exact Or.inr h'

theorem assocFind_mem (m : List (String × α)) (k : String) (v : α)
    (h : assocFind m k = some v) : (k, v) ∈ m := by
  simp only [assocFind, Option.map_eq_some'] at h
  rcases h with ⟨p, hp, hv⟩
  have hmem := List.mem_of_find?_eq_some hp
  have hpred := List.find?_some hp
  simp at hpred
  have : p = (k, v) := by
    cases p
    simp_all
  rw [← this]
  exact hmem

theorem evictStale_subset (now w : Int) (b : List Int) :
    ∀ t ∈ evictStale now w b, t ∈ b := by
  induction b with
  | nil => simp [evictStale]
  | cons u us ih =>
    intro t ht
    by_cases h : w ≤ now - u
    · simp only [evictStale, if_pos h] at ht
      exact List.mem_cons_of_mem u (ih t ht)
    · simpa [evictStale, if_neg h] using ht

theorem evictStale_head_recent (now w : Int) (b : List Int) (t : Int) (ts : List Int)
    (h : evictStale now w b = t :: ts) : now - t < w := by
  induction b with
  | nil => simp [evictStale] at h
  | cons u us ih =>
    by_cases hc : w ≤ now - u
    · exact ih (by simpa [evictStale, if_pos hc] using h)
    · simp only [evictStale, if_neg hc, List.cons.injEq] at h
      omega

theorem bucketStep_snd_subset (N W : Int) (b : List Int) (now : Int) :
    ∀ t ∈ (bucketStep N W b now).2, t ∈ b ∨ t = now := by
  intro t ht
  by_cases h : N ≤ ((evictStale now W b).length : Int)
  · simp only [bucketStep, if_pos h] at ht
    exact Or.inl (evictStale_subset now W b t ht)
  · simp only [bucketStep, if_neg h, List.mem_append] at ht
    rcases ht with h' | h'
    · exact Or.inl (evictStale_subset now W b t h')
    · simp at h'; exact Or.inr h'

/-- Modelled from the spec: the full sweep over the bucket table ("a full sweep
triggered once the bucket table exceeds a size threshold") drops, for every
client, the entries older than the window and removes buckets left with no
recent activity. -/
def sweepTable (window now : Int) (m : List (String × List Int)) :
    List (String × List Int) :=
  (m.map (fun p => (p.1, evictStale now window p.2))).filter (fun p => ¬ p.2.isEmpty)

/-- Modelled from the spec: the rate limiter with memory reclamation; the
sweep-carrying variant of `IpRateLimiter` is exercised by the repository's
tests but missing from the source copy. -/
structure SweepRateLimiter where
  max_requests : Int
  window_sec : Int
  purge_threshold : Nat
  requests : List (String × List Int)
deriving DecidableEq, Repr

def mkSweepLimiter (maxReq window : Int) (th : Nat) : SweepRateLimiter :=
  { max_requests := maxReq, window_sec := window, purge_threshold := th, requests := [] }

/-- Modelled from the spec: `allow` behaves as the source limiter's `allow`
and then, once the bucket table exceeds the size threshold, runs the full
sweep. -/
def SweepRateLimiter.allow (rl : SweepRateLimiter) (client : String) (now : Int) :
    (Bool × Int) × SweepRateLimiter :=
  if rl.max_requests ≤ 0 ∨ rl.window_sec ≤ 0 then ((true, 0), rl)
  else
    let bucket := (assocFind rl.requests client).getD []
    let r := bucketStep rl.max_requests rl.window_sec bucket now
    let m := assocSet rl.requests client r.2
    let m2 := if rl.purge_threshold < m.length then sweepTable rl.window_sec now m else m
    (r.1, { rl with requests := m2 })

/-- A sequence of `allow` calls, each given as a client identifier and an
instant. -/
def runSweep (rl : SweepRateLimiter) (calls : List (String × Int)) : SweepRateLimiter :=
  calls.foldl (fun r p => (r.allow p.1 p.2).2) rl

/-- Well-formedness of the bucket table relative to the call history: client
keys are distinct, and every timestamp in a client's bucket comes from a call
of that client. -/
def TableProvenance (calls : List (String × Int)) (m : List (String × List Int)) : Prop :=
  (keysOf m).Nodup ∧ ∀ p ∈ m, ∀ t ∈ p.2, (p.1, t) ∈ calls

theorem sweepTable_mem (window now : Int) (m : List (String × List Int)) :
    ∀ p ∈ sweepTable window now m,
      ∃ b0, (p.1, b0) ∈ m ∧ p.2 = evictStale now window b0 ∧ p.2 ≠ [] := by
  intro p hp
  simp only [sweepTable, List.mem_filter, List.mem_map] at hp
  rcases hp with ⟨⟨q, hq, hpq⟩, hne⟩
  refine ⟨q.2, ?_, ?_, ?_⟩
  · have : (q.1, q.2) = q := rfl
    rw [← hpq]
    simpa [this] using hq
  · rw [← hpq]
  · rcases p with ⟨p1, p2⟩
    simp at hne ⊢
    simpa using hne

theorem sweepTable_keys_sublist (window now : Int) (m : List (String × List Int)) :
    List.Sublist (keysOf (sweepTable window now m)) (keysOf m) := by
  have h1 : List.Sublist (sweepTable window now m)
      (m.map (fun p => (p.1, evictStale now window p.2))) := List.filter_sublist _
  have h2 := h1.map (fun p : String × List Int => p.1)
  simpa [keysOf, List.map_map, Function.comp] using h2

theorem TableProvenance.mono (calls extra : List (String × Int))
    (m : List (String × List Int)) (h : TableProvenance calls m) :
    TableProvenance (calls ++ extra) m :=
  ⟨h.1, fun p hp t ht => List.mem_append.mpr (Or.inl (h.2 p hp t ht))⟩

theorem allow_provenance (rl : SweepRateLimiter) (c : String) (now : Int)
    (calls : List (String × Int)) (h : TableProvenance calls rl.requests) :
    TableProvenance (calls ++ [(c, now)]) ((rl.allow c now).2.requests) := by
  by_cases hd : rl.max_requests ≤ 0 ∨ rl.window_sec ≤ 0
  · simpa [SweepRateLimiter.allow, hd] using TableProvenance.mono calls [(c, now)] _ h
  · simp only [SweepRateLimiter.allow, if_neg hd]
    set newB := (bucketStep rl.max_requests rl.window_sec
      ((assocFind rl.requests c).getD []) now).2 with hnewB
    set m1 := assocSet rl.requests c newB with hm1
    have hm1prov : TableProvenance (calls ++ [(c, now)]) m1 := by
      constructor
      · exact keysOf_assocSet_nodup rl.requests c newB h.1
      · intro p hp t ht
        rcases mem_assocSet rl.requests c newB p hp with hmem | hpq
        · exact List.mem_append.mpr (Or.inl (h.2 p hmem t ht))
        · subst hpq
          simp only at ht
          rcases bucketStep_snd_subset rl.max_requests rl.window_sec
              ((assocFind rl.requests c).getD []) now t ht with hold | hnow
          · rcases hfind : assocFind rl.requests c with _ | b
            · rw [hfind] at hold; simp at hold
            · rw [hfind] at hold
              simp only [Option.getD_some] at hold
              exact List.mem_append.mpr
                (Or.inl (h.2 (c, b) (assocFind_mem rl.requests c b hfind) t hold))
          · subst hnow
            exact List.mem_append.mpr (Or.inr (by simp))
    by_cases hth : rl.purge_threshold < m1.length
    · simp only [if_pos hth]
      constructor
      · exact ((sweepTable_keys_sublist rl.window_sec now m1).nodup hm1prov.1)
      · intro p hp t ht
        rcases sweepTable_mem rl.window_sec now m1 p hp with ⟨b0, hb0, hpevict, _⟩
        have : t ∈ b0 := evictStale_subset now rl.window_sec b0 t (hpevict ▸ ht)
        exact hm1prov.2 (p.1, b0) hb0 t this
    · simpa [if_neg hth] using hm1prov

theorem runSweep_provenance (calls : List (String × Int)) :
    ∀ (rl : SweepRateLimiter) (done : List (String × Int)),
      TableProvenance done rl.requests →
      TableProvenance (done ++ calls) (runSweep rl calls).requests := by
  induction calls with
  | nil => intro rl done h; simpa [runSweep] using h
  | cons p rest ih =>
    intro rl done h
    have hstep := allow_provenance rl p.1 p.2 done h
    have := ih ((rl.allow p.1 p.2).2) (done ++ [(p.1, p.2)]) hstep
    simpa [runSweep, List.foldl_cons, List.append_assoc] using this

theorem sweep_allow_fields (rl : SweepRateLimiter) (c : String) (now : Int) :
    ((rl.allow c now).2.max_requests = rl.max_requests) ∧
    ((rl.allow c now).2.window_sec = rl.window_sec) ∧
    ((rl.allow c now).2.purge_threshold = rl.purge_threshold) := by
  by_cases hd : rl.max_requests ≤ 0 ∨ rl.window_sec ≤ 0
  · simp [SweepRateLimiter.allow, hd]
  · simp [SweepRateLimiter.allow, hd]

theorem runSweep_fields (calls : List (String × Int)) (rl : SweepRateLimiter) :
    ((runSweep rl calls).max_requests = rl.max_requests) ∧
    ((runSweep rl calls).window_sec = rl.window_sec) ∧
    ((runSweep rl calls).purge_threshold = rl.purge_threshold) := by
  induction calls generalizing rl with
  | nil => simp [runSweep]
  | cons p rest ih =>
    have hs := sweep_allow_fields rl p.1 p.2
    have hr := ih ((rl.allow p.1 p.2).2)
    simp only [runSweep, List.foldl_cons] at *
    exact ⟨hr.1.trans hs.1, (hr.2.1.trans hs.2.1), hr.2.2.trans hs.2.2⟩

theorem allow_sweep_or_recent (rl : SweepRateLimiter) (c : String) (now : Int)
    (hN : 0 < rl.max_requests) (hW : 0 < rl.window_sec) :
    ((rl.allow c now).2.requests.length ≤ rl.purge_threshold) ∨
    (∀ p ∈ (rl.allow c now).2.requests, ∃ t ∈ p.2, now - t < rl.window_sec) := by
  have hd : ¬ (rl.max_requests ≤ 0 ∨ rl.window_sec ≤ 0) := by omega
  simp only [SweepRateLimiter.allow, if_neg hd]
  set m1 := assocSet rl.requests c (bucketStep rl.max_requests rl.window_sec
    ((assocFind rl.requests c).getD []) now).2 with hm1
  by_cases hth : rl.purge_threshold < m1.length
  · simp only [if_pos hth]
    right
    intro p hp
    rcases sweepTable_mem rl.window_sec now m1 p hp with ⟨b0, _, hpevict, hne⟩
    rcases hcase : p.2 with _ | ⟨t, ts⟩
    · exact absurd hcase hne
    · refine ⟨t, by simp [hcase], ?_⟩
      exact evictStale_head_recent now rl.window_sec b0 t ts (by rw [← hpevict, hcase])
  · simp only [if_neg hth]
    left
    omega

/-- C4 (modelled from the spec): once the bucket table exceeds the size
threshold, the full sweep leaves only buckets with recent activity; hence after
any run of `allow` calls the table size is bounded by the larger of the
threshold and the number of calls made within the trailing window of the last
call — the table cannot grow without bound under churn of ephemeral client
identifiers. -/
theorem C4_rate_limiter_table_bounded
    (N W : Int) (th : Nat) (calls : List (String × Int)) (c : String) (now : Int)
    (hN : 0 < N) (hW : 0 < W) :
    (∀ rl : SweepRateLimiter, rl.max_requests = N → rl.window_sec = W →
      ((rl.allow c now).2.requests.length ≤ rl.purge_threshold) ∨
      (∀ p ∈ (rl.allow c now).2.requests, ∃ t ∈ p.2, now - t < W)) ∧
    (runSweep (mkSweepLimiter N W th) (calls ++ [(c, now)])).requests.length
      ≤ max th ((calls ++ [(c, now)]).filter (fun p => now - p.2 < W)).length := by
  constructor
  · intro rl hM hWf
    have h := allow_sweep_or_recent rl c now (by rw [hM]; exact hN) (by rw [hWf]; exact hW)
    rwa [hWf] at h
  · set rl1 := runSweep (mkSweepLimiter N W th) calls with hrl1
    have hsplit : runSweep (mkSweepLimiter N W th) (calls ++ [(c, now)])
        = (rl1.allow c now).2 := by
      simp [runSweep, List.foldl_append, hrl1]
    have hfields := runSweep_fields calls (mkSweepLimiter N W th)
    have hN1 : rl1.max_requests = N := by
      rw [← hrl1] at hfields
      simpa [mkSweepLimiter] using hfields.1
    have hW1 : rl1.window_sec = W := by
      rw [← hrl1] at hfields
      simpa [mkSweepLimiter] using hfields.2.1
    have hth1 : rl1.purge_threshold = th := by
      rw [← hrl1] at hfields
      simpa [mkSweepLimiter] using hfields.2.2
    have hprov0 : TableProvenance [] (mkSweepLimiter N W th).requests := by
      simp [TableProvenance, keysOf, mkSweepLimiter]
    have hprov := runSweep_provenance (calls ++ [(c, now)]) (mkSweepLimiter N W th) [] hprov0
    rw [List.nil_append, hsplit] at hprov
    rcases allow_sweep_or_recent rl1 c now (by rw [hN1]; exact hN) (by rw [hW1]; exact hW)
      with hsmall | hrecent
    · rw [hsplit]
      exact le_trans (hth1 ▸ hsmall) (le_max_left th _)
    · have hnodup : (keysOf (rl1.allow c now).2.requests).Nodup := hprov.1
      have hsub : keysOf (rl1.allow c now).2.requests
          ⊆ ((calls ++ [(c, now)]).filter (fun p => now - p.2 < W)).map (fun p => p.1) := by
        intro k hk
        simp only [keysOf, List.mem_map] at hk
        rcases hk with ⟨p, hp, hpk⟩
        rcases hrecent p hp with ⟨t, ht, hrec⟩
        have hcall := hprov.2 p hp t ht
        refine List.mem_map.mpr ⟨(p.1, t), List.mem_filter.mpr ⟨hcall, ?_⟩, hpk⟩
        rw [hW1] at hrec
        simpa using hrec
      have hlen := (List.subperm_of_subset hnodup hsub).length_le
      rw [hsplit]
      calc (rl1.allow c now).2.requests.length
          = (keysOf (rl1.allow c now).2.requests).length := by simp [keysOf]
        _ ≤ (((calls ++ [(c, now)]).filter (fun p => now - p.2 < W)).map
              (fun p => p.1)).length := hlen
        _ = ((calls ++ [(c, now)]).filter (fun p => now - p.2 < W)).length := by simp
        _ ≤ max th _ := le_max_right th _

/-- Witness for C4: threshold 1 forces a sweep after the second distinct
client; the stale first bucket is removed. -/
theorem C4_rate_limiter_table_bounded_witness :
    (runSweep (mkSweepLimiter 1 60 1) ([("a", 0)] ++ [("b", 100)])).requests.length
      ≤ max 1 ((([("a", 0)] ++ [("b", 100)] : List (String × Int))).filter
          (fun p => 100 - p.2 < 60)).length :=
  (C4_rate_limiter_table_bounded 1 60 1 [("a", 0)] "b" 100 (by decide) (by decide)).2

/-! ## Job model and AsyncJobQueue (source lines 355-571) -/

inductive JobStatus where
  | queued
  | processing
  | completed
  | failed
deriving DecidableEq, Repr

/-- The result dict of `_do_process`, reduced to the fields `_process_job`
inspects: `success` and `error`. -/
structure ProcResult where
  success : Bool
  error : Option String
deriving DecidableEq, Repr

/-- The `Job` dataclass; instants are integers, and `created_at`/`progress`
keep their defaults. -/
structure Job where
  job_id : String
  paper_id : String
  pdf_path : String
  status : JobStatus := .queued
  webhook_url : Option String := none
  forceParser : Option String := none
  force_reprocess : Bool := false
  started_at : Option Int := none
  completed_at : Option Int := none
  result : Option ProcResult := none
  error : Option String := none
  progress : Nat := 0
deriving DecidableEq, Repr

def MAX_QUEUE_DEPTH : Nat := 10

def MAX_JOB_HISTORY : Nat := 100

/-- `AsyncJobQueue.__init__`: live map, bounded history, worker pool; the ids
handed to `executor.submit` are recorded in `scheduled`. -/
structure AsyncJobQueue where
  jobs : List (String × Job)
  job_history : List Job
  max_workers : Nat
  scheduled : List String
deriving DecidableEq, Repr

/-- `submit_job`: create the job (status Queued), store it in the live map,
hand it to the worker pool, and return it immediately; the `uuid4` id is a
parameter of the embedding. There is no capacity check anywhere in it. -/
def AsyncJobQueue.submit_job (q : AsyncJobQueue) (job_id paper_id pdf_path : String)
    (webhook_url : Option String) (forceParser : Option String)
    (force_reprocess : Bool) : Job × AsyncJobQueue :=
  let job : Job :=
    { job_id := job_id, paper_id := paper_id, pdf_path := pdf_path,
      webhook_url := webhook_url, forceParser := forceParser,
      force_reprocess := force_reprocess }
  (job, { q with jobs := assocSet q.jobs job_id job,
                 scheduled := q.scheduled ++ [job_id] })

/-- `get_job`: `self.jobs.get(job_id)` — the live map only. -/
def AsyncJobQueue.get_job (q : AsyncJobQueue) (job_id : String) : Option Job :=
  assocFind q.jobs job_id

/-- `get_active_count`: jobs whose status is Queued or Processing. -/
def AsyncJobQueue.get_active_count (q : AsyncJobQueue) : Nat :=
  (q.jobs.filter (fun p => p.2.status = .queued ∨ p.2.status = .processing)).length

/-- `can_accept`: active count below `max_workers + MAX_QUEUE_DEPTH`. -/
def AsyncJobQueue.can_accept (q : AsyncJobQueue) : Bool :=
  decide (q.get_active_count < q.max_workers + MAX_QUEUE_DEPTH)

/-- The outcome of `run_in_shared_loop(self._do_process(job))` as observed by
`_process_job`: either the returned result dict, or an exception caught by the
worker's `except Exception` boundary. -/
inductive ProcOutcome where
  | ok (res : ProcResult)
  | exc (msg : String)
deriving DecidableEq, Repr

/-- The process-wide state `_process_job` touches: the queue, the global
circuit breaker, and the log of `_call_webhook` invocations. -/
structure ProcEnv where
  queue : AsyncJobQueue
  cb : CircuitBreaker
  webhook_log : List Job
deriving DecidableEq, Repr

/-- `_process_job` (source lines 527-571): mark Processing; on a result dict,
classify success/failure, update the breaker, call the webhook when
configured, and move the job from the live map into the bounded history; on an
exception caught at the worker boundary, mark Failed with the error, record a
breaker failure and call the webhook — the exception branch performs no move
to history. -/
def processJob (env : ProcEnv) (job : Job) (startedAt completedAt : Int)
    (outcome : ProcOutcome) : ProcEnv :=
  let job1 : Job := { job with status := .processing, started_at := some startedAt }
  let q1 := { env.queue with jobs := assocUpdate env.queue.jobs job.job_id job1 }
  match outcome with
  | .ok res =>
    let job2 : Job :=
      if res.success then
        { job1 with
            completed_at := some completedAt
            status := .completed
            result := some res }
      else
        { job1 with
            completed_at := some completedAt
            status := .failed
            error := some (res.error.getD "Unknown error") }
    let cb2 := if res.success then env.cb.record_success
      else env.cb.record_failure completedAt
    let q2 := { q1 with jobs := assocUpdate q1.jobs job.job_id job2 }
    let log2 := if job2.webhook_url.isSome then env.webhook_log ++ [job2]
      else env.webhook_log
    let q3 :=
      match assocFind q2.jobs job.job_id with
      | some j =>
        { q2 with jobs := assocErase q2.jobs job.job_id,
                  job_history := dequeAppend MAX_JOB_HISTORY q2.job_history j }
      | none => q2
    { queue := q3, cb := cb2, webhook_log := log2 }
  | .exc msg =>
    let jobF : Job :=
      { job1 with
          status := .failed
          error := some msg
          completed_at := some completedAt }
    let q2 := { q1 with jobs := assocUpdate q1.jobs job.job_id jobF }
    let cb2 := env.cb.record_failure completedAt
    let log2 := if jobF.webhook_url.isSome then env.webhook_log ++ [jobF]
      else env.webhook_log
    { queue := q2, cb := cb2, webhook_log := log2 }

/-- C9: `submit_job` itself never rejects: for every queue state — including
every state in which `can_accept` returns `false` — it stores a job with
status Queued in the live map under the fresh id, appends the id to the worker
pool's schedule, and returns the job; capacity is enforced only by the caller
checking `can_accept` beforehand. -/
theorem C9_submit_job_never_rejects (q : AsyncJobQueue)
    (job_id paper_id pdf_path : String) (webhook_url forceParser : Option String)
    (force_reprocess : Bool) :
    ((q.submit_job job_id paper_id pdf_path webhook_url forceParser
        force_reprocess).1.status = .queued) ∧
    (assocFind (q.submit_job job_id paper_id pdf_path webhook_url forceParser
        force_reprocess).2.jobs job_id
      = some (q.submit_job job_id paper_id pdf_path webhook_url forceParser
        force_reprocess).1) ∧
    ((q.submit_job job_id paper_id pdf_path webhook_url forceParser
        force_reprocess).2.scheduled = q.scheduled ++ [job_id]) ∧
    ((q.submit_job job_id paper_id pdf_path webhook_url forceParser
        force_reprocess).2.max_workers = q.max_workers) := by
  refine ⟨by rfl, ?_, by rfl, by rfl⟩
  simp only [AsyncJobQueue.submit_job]
  exact assocFind_assocSet q.jobs job_id _

/-- The job lookup performed for `GET /jobs/{id}` (source lines 1255-1266):
`get_job` consults the live map; on a miss the handler scans the history
buffer and returns the first record with a matching id. -/
def lookupJobRequest (q : AsyncJobQueue) (job_id : String) : Option Job :=
  match q.get_job job_id with
  | some j => some j
  | none => q.job_history.find? (fun h => h.job_id = job_id)

/-- C5: the get-job lookup consults the live map first and then the history
buffer: a live job is returned as-is, any returned job comes from the live map
or from history under the requested id, and the lookup reports not-found
exactly when the id is in neither. -/
theorem C5_get_job_live_then_history (q : AsyncJobQueue) (job_id : String) :
    (∀ j, assocFind q.jobs job_id = some j → lookupJobRequest q job_id = some j) ∧
    (∀ j, lookupJobRequest q job_id = some j →
      assocFind q.jobs job_id = some j ∨ (j ∈ q.job_history ∧ j.job_id = job_id)) ∧
    (lookupJobRequest q job_id = none ↔
      (assocFind q.jobs job_id = none ∧ ∀ j ∈ q.job_history, ¬ j.job_id = job_id)) := by
  refine ⟨?_, ?_, ?_⟩
  · intro j h
    simp [lookupJobRequest, AsyncJobQueue.get_job, h]
  · intro j h
    rcases hg : assocFind q.jobs job_id with _ | j'
    · right
      simp only [lookupJobRequest, AsyncJobQueue.get_job, hg] at h
      refine ⟨List.mem_of_find?_eq_some h, ?_⟩
      have := List.find?_some h
      simpa using this
    · left
      simp only [lookupJobRequest, AsyncJobQueue.get_job, hg, Option.some.injEq] at h
      subst h
      exact rfl
  · constructor
    · intro h
      rcases hg : assocFind q.jobs job_id with _ | j'
      · simp only [lookupJobRequest, AsyncJobQueue.get_job, hg] at h
        refine ⟨rfl, ?_⟩
        intro j hj heq
        have hfalse := List.find?_eq_none.mp h j hj
        simp [heq] at hfalse
      · simp [lookupJobRequest, AsyncJobQueue.get_job, hg] at h
    · rintro ⟨h1, h2⟩
      simp only [lookupJobRequest, AsyncJobQueue.get_job, h1]
      exact List.find?_eq_none.mpr (fun j hj => by simpa using h2 j hj)

/-- A concrete job and queue used to instantiate the job-queue theorems. -/
def sampleJob : Job :=
  { job_id := "j1", paper_id := "arxiv:2401.00001", pdf_path := "/data/x.pdf",
    webhook_url := some "http://cb.example/hook" }

def sampleQueue : AsyncJobQueue :=
  { jobs := [("j1", sampleJob)], job_history := [], max_workers := 2,
    scheduled := ["j1"] }

/-- Witness for C5: a job present in the live map is returned by the lookup. -/
theorem C5_get_job_live_then_history_witness :
    lookupJobRequest sampleQueue "j1" = some sampleJob :=
  (C5_get_job_live_then_history sampleQueue "j1").1 sampleJob (by rfl)

/-- The job record produced by the worker's exception handler: Failed, error
recorded, start and completion instants set. -/
def failedJobOf (job : Job) (t1 t2 : Int) (msg : String) : Job :=
  { job with
      status := .failed
      started_at := some t1
      completed_at := some t2
      error := some msg }

def sampleEnv : ProcEnv :=
  { queue := sampleQueue, cb := CircuitBreaker.init 3 300, webhook_log := [] }

/-- Counterexample to C3 as stated: when an exception escapes the processing
function, the worker marks the job Failed and fires the breaker and webhook
paths, but the job is not moved into the history ring — a terminal job remains
in the live map and the history stays empty. -/
theorem C3_counterexample :
    ((assocFind (processJob sampleEnv sampleJob 1 2 (.exc "boom")).queue.jobs
        "j1").map Job.status = some .failed) ∧
    (processJob sampleEnv sampleJob 1 2 (.exc "boom")).queue.job_history = [] := by
  decide

/-- C3 (amended): if an unexpected exception escapes the per-job processing
function, the worker catches it, sets the job's status to Failed with the
error recorded, invokes the circuit-breaker failure path and the webhook when
configured — but the job remains in the live job map and the history ring is
unchanged; only the normal completion path moves jobs into the bounded
history. -/
theorem C3_exception_path_keeps_job_live (env : ProcEnv) (job : Job)
    (t1 t2 : Int) (msg : String)
    (h : assocFind env.queue.jobs job.job_id = some job) :
    (assocFind (processJob env job t1 t2 (.exc msg)).queue.jobs job.job_id
      = some (failedJobOf job t1 t2 msg)) ∧
    ((processJob env job t1 t2 (.exc msg)).queue.job_history
      = env.queue.job_history) ∧
    ((processJob env job t1 t2 (.exc msg)).cb = env.cb.record_failure t2) ∧
    ((processJob env job t1 t2 (.exc msg)).webhook_log
      = if job.webhook_url.isSome then env.webhook_log ++ [failedJobOf job t1 t2 msg]
        else env.webhook_log) := by
  refine ⟨?_, rfl, rfl, rfl⟩
  exact assocFind_assocUpdate _ _ _ _ (assocFind_assocUpdate _ _ _ _ h)

/-- Witness for C3 (amended): the concrete failed job stays in the live map
with its error recorded. -/
theorem C3_exception_path_keeps_job_live_witness :
    assocFind (processJob sampleEnv sampleJob 1 2 (.exc "boom")).queue.jobs "j1"
      = some (failedJobOf sampleJob 1 2 "boom") :=
  (C3_exception_path_keeps_job_live sampleEnv sampleJob 1 2 "boom" (by rfl)).1

/-! ## PathGuard: sanitize_pdf_path (source lines 126-189)

Python string primitives are modelled over character lists (Lean's built-in
`String` helpers use well-founded recursion, which a witness cannot evaluate
by kernel reduction). -/

/-- Python `str.strip()`. -/
def pyStrip (s : String) : String :=
  String.mk (((s.toList.dropWhile Char.isWhitespace).reverse.dropWhile
    Char.isWhitespace).reverse)

/-- Python `"\x00" in s`. -/
def pyHasNul (s : String) : Bool :=
  s.toList.contains (Char.ofNat 0)

/-- Python `s.startswith(pre)`. -/
def pyStartsWith (s pre : String) : Bool :=
  pre.toList.isPrefixOf s.toList

/-- Python `s.lower()`. -/
def pyLower (s : String) : String :=
  String.mk (s.toList.map Char.toLower)

/-- Drop the first `n` characters. -/
def pyDropChars (s : String) (n : Nat) : String :=
  String.mk (s.toList.drop n)

/-- `str.replace(old, new, 1)` in the guarded case where `s` starts with
`old`, so the first occurrence is the leading one. -/
def replaceLeading (s old new : String) : String :=
  new ++ pyDropChars s old.toList.length

/-- Outcome of `Path.resolve(strict=True)`: the canonical absolute path
(symlinks and `..` segments resolved) as components, or the two error cases
the source distinguishes. -/
inductive ResolveOutcome where
  | found (p : List String)
  | notFound
  | osError
deriving DecidableEq, Repr

/-- The filesystem oracle: `expanduser`, strict `resolve` to a canonical path,
and the regular-file and readability tests on canonical paths. -/
structure PdfFs where
  expandUser : String → String
  resolve : String → ResolveOutcome
  isFile : List String → Bool
  readable : List String → Bool

/-- The module configuration: container/host path translation and the
canonical allow-listed roots (as components). `pathMappings` holds the parsed
nonempty `container:host` pairs of `RAG_PATH_MAPPINGS`. -/
structure PdfConfig where
  containerPfx : String
  hostPfx : String
  pathMappings : List (String × String)
  allowedRoots : List (List String)
  allowUnsafe : Bool

inductive PdfPathError where
  | valueError (msg : String)
  | fileNotFound (msg : String)
  | permissionError (msg : String)
deriving DecidableEq, Repr

/-- `translate_container_to_host_path`: rewrite the container prefix using the
first matching configured mapping, else the global host prefix, else return
the path unchanged. -/
def translate_container_to_host_path (cfg : PdfConfig) (pdf_path : String) : String :=
  let viaMappings :=
    if pyStartsWith pdf_path cfg.containerPfx ∧ cfg.pathMappings ≠ [] then
      cfg.pathMappings.find? (fun m => ¬ m.1 = "" ∧ pyStartsWith pdf_path m.1)
    else none
  match viaMappings with
  | some m => replaceLeading pdf_path m.1 m.2
  | none =>
    if pyStartsWith pdf_path cfg.containerPfx ∧ ¬ cfg.hostPfx = "" then
      replaceLeading pdf_path cfg.containerPfx cfg.hostPfx
    else pdf_path

/-- `Path.suffix`: the substring of the file name from its last dot, when that
dot is neither leading nor trailing. -/
def pathSuffix (name : String) : String :=
  let cs := name.toList
  let idxs := (List.range cs.length).filter (fun i => cs.getD i ' ' = '.')
  match idxs.getLast? with
  | some i => if 0 < i ∧ i < cs.length - 1 then String.mk (cs.drop i) else ""
  | none => ""

/-- `_is_relative_to`: `path.relative_to(root)` succeeds exactly when the
root's components are a prefix of the canonical path's components. -/
def _is_relative_to (path root : List String) : Bool :=
  root.isPrefixOf path

/-- `sanitize_pdf_path`: strip, reject empty input and NUL bytes, translate
the container prefix, require an absolute path, canonicalize strictly,
require a readable regular `.pdf` file, and — when enforcement is on and
roots are configured — require the canonical path (never the raw string) to
fall under an allowed root. -/
def sanitize_pdf_path (fs : PdfFs) (cfg : PdfConfig) (pdf_path : String) :
    Except PdfPathError (List String) :=
  let raw := pyStrip pdf_path
  if raw = "" then .error (.valueError "pdf_path is empty")
  else if pyHasNul raw then
    .error (.valueError "pdf_path contains invalid characters")
  else
    let candidate := fs.expandUser (translate_container_to_host_path cfg raw)
    if ¬ pyStartsWith candidate "/" then
      .error (.valueError "pdf_path must be an absolute path")
    else
      match fs.resolve candidate with
      | .notFound => .error (.fileNotFound "PDF not found")
      | .osError => .error (.valueError "Invalid pdf_path")
      | .found resolved =>
        if ¬ fs.isFile resolved then .error (.fileNotFound "PDF not found")
        else if ¬ pyLower (pathSuffix (resolved.getLastD "")) = ".pdf" then
          .error (.valueError "pdf_path must point to a .pdf file")
        else if ¬ fs.readable resolved then
          .error (.permissionError "PDF is not readable")
        else if ¬ cfg.allowUnsafe ∧ cfg.allowedRoots ≠ [] then
          if cfg.allowedRoots.any (fun root => _is_relative_to resolved root) then
            .ok resolved
          else .error (.permissionError "pdf_path is outside allowed directories")
        else .ok resolved

/-- C8: for a raw input whose canonical target is a regular readable `.pdf`
file, the resolver returns the canonical path, which is a prefix-descendant of
the allowed root containing it; and when enforcement is on, at least one root
is configured, and the canonical target lies outside every root, the resolver
fails with the permission error — the containment decision depends only on the
canonicalized path, never on the raw string (which may contain `../` segments
or start under a root). -/
theorem C8_path_guard (fs : PdfFs) (cfg : PdfConfig) (pdf_path : String)
    (p : List String)
    (h0 : ¬ pyStrip pdf_path = "")
    (h1 : pyHasNul (pyStrip pdf_path) = false)
    (h2 : pyStartsWith (fs.expandUser (translate_container_to_host_path cfg
        (pyStrip pdf_path))) "/" = true)
    (h3 : fs.resolve (fs.expandUser (translate_container_to_host_path cfg
        (pyStrip pdf_path))) = .found p)
    (h4 : fs.isFile p = true)
    (h5 : pyLower (pathSuffix (p.getLastD "")) = ".pdf")
    (h6 : fs.readable p = true) :
    (∀ root ∈ cfg.allowedRoots, _is_relative_to p root = true →
      sanitize_pdf_path fs cfg pdf_path = .ok p ∧ root.isPrefixOf p = true) ∧
    (cfg.allowUnsafe = false → cfg.allowedRoots ≠ [] →
      (∀ root ∈ cfg.allowedRoots, _is_relative_to p root = false) →
      sanitize_pdf_path fs cfg pdf_path
        = .error (.permissionError "pdf_path is outside allowed directories")) := by
  constructor
  · intro root hroot hrel
    refine ⟨?_, hrel⟩
    rw [List.getLastD_eq_getLast?] at h5
    simp [sanitize_pdf_path, h0, h1, h2, h3, h4, h5, h6]
    intro _ _
    exact ⟨root, hroot, hrel⟩
  · intro hunsafe hroots hrel
    rw [List.getLastD_eq_getLast?] at h5
    simp [sanitize_pdf_path, h0, h1, h2, h3, h4, h5, h6, hunsafe, hroots]
    exact hrel

/-- A concrete filesystem for the C8 witness: `/data` is the allowed root and
`/data/../secret/doc.pdf` canonicalizes outside it. -/
def samplePdfFs : PdfFs :=
  { expandUser := fun s => s
    resolve := fun s =>
      if s = "/data/doc.pdf" then .found ["data", "doc.pdf"]
      else if s = "/data/../secret/doc.pdf" then .found ["secret", "doc.pdf"]
      else .notFound
    isFile := fun _ => true
    readable := fun _ => true }

def samplePdfConfig : PdfConfig :=
  { containerPfx := "/workspace/", hostPfx := "", pathMappings := [],
    allowedRoots := [["data"]], allowUnsafe := false }

/-- Witness for C8: the in-root file is accepted with its canonical path; the
`../` traversal whose raw string starts under the root is rejected. -/
theorem C8_path_guard_witness :
    sanitize_pdf_path samplePdfFs samplePdfConfig "/data/doc.pdf"
        = .ok ["data", "doc.pdf"] ∧
    sanitize_pdf_path samplePdfFs samplePdfConfig "/data/../secret/doc.pdf"
        = .error (.permissionError "pdf_path is outside allowed directories") := by
  constructor
  · exact ((C8_path_guard samplePdfFs samplePdfConfig "/data/doc.pdf"
      ["data", "doc.pdf"] (by decide) (by decide) (by decide) (by decide) (by decide)
      (by decide) (by decide)).1 ["data"] (by decide) (by decide)).1
  · exact (C8_path_guard samplePdfFs samplePdfConfig "/data/../secret/doc.pdf"
      ["secret", "doc.pdf"] (by decide) (by decide) (by decide) (by decide)
      (by decide) (by decide) (by decide)).2 (by decide) (by decide) (by decide)

/-! ## WebhookGuard: sanitize_webhook_url (claim C1)

The webhook sanitizer is exercised by the repository's tests
(`test_sanitize_webhook_url_*`) and specified in §4.2, but it is absent from
the source copy; it is modelled here from the specification. -/

/-- Python `s.endswith(suf)`. -/
def pyEndsWith (s suf : String) : Bool :=
  suf.toList.isSuffixOf s.toList

/-- Modelled from the spec: a resolved address with its classification; an
address is public when it lies in none of the private/loopback/link-local/
multicast/reserved ranges. -/
structure IpAddr where
  addr : String
  isPublic : Bool
deriving DecidableEq, Repr

/-- Modelled from the spec: a parsed webhook URL — raw text, scheme, optional
embedded userinfo credentials, and hostname. -/
structure WebhookUrl where
  raw : String
  scheme : String
  userinfo : Option String
  host : String
deriving DecidableEq, Repr

inductive WebhookError where
  | valueError (msg : String)
  | permissionError (msg : String)
deriving DecidableEq, Repr

/-- Modelled from the spec: the webhook-guard configuration — the unsafe-mode
flag `ALLOW_PRIVATE_WEBHOOK_HOSTS`, the trusted-host allow-list
`ALLOWED_WEBHOOK_HOSTS` (exact entries, or suffix entries starting with a
dot), and the DNS resolution oracle `_resolve_webhook_ips`. -/
structure WebhookConfig where
  allowPrivateHosts : Bool
  allowedHosts : List String
  resolveIps : String → List IpAddr

def MAX_WEBHOOK_URL_LEN : Nat := 2048

/-- Modelled from the spec: allow-list matching — exact hostname, or suffix
match for entries starting with a dot. -/
def hostAllowlisted (allowed : List String) (host : String) : Bool :=
  allowed.any (fun entry =>
    host = entry ∨ (pyStartsWith entry "." ∧ pyEndsWith host entry))

/-- Modelled from the spec: `sanitize_webhook_url` — `None` passes through;
over-long URLs, non-http(s) schemes and embedded credentials are rejected;
allow-listed hosts are accepted unresolved; under the unsafe-mode flag the
host is accepted without resolution; otherwise the host is resolved and the
URL is rejected unless some resolved address is public, in which case that
address is returned as the pinned IP with the URL — and hence the hostname
used for TLS SNI and certificate validation — unchanged. -/
def sanitize_webhook_url (cfg : WebhookConfig) (u : Option WebhookUrl) :
    Except WebhookError (Option WebhookUrl × Option String) :=
  match u with
  | none => .ok (none, none)
  | some url =>
    if MAX_WEBHOOK_URL_LEN < url.raw.length then
      .error (.valueError "webhook_url too long")
    else if ¬ (url.scheme = "http" ∨ url.scheme = "https") then
      .error (.valueError "webhook_url must use http or https")
    else if url.userinfo.isSome then
      .error (.valueError "webhook_url must not include credentials")
    else if hostAllowlisted cfg.allowedHosts url.host then .ok (some url, none)
    else if cfg.allowPrivateHosts then .ok (some url, none)
    else
      match (cfg.resolveIps url.host).find? (fun ip => ip.isPublic) with
      | some ip => .ok (some url, some ip.addr)
      | none => .error (.permissionError "webhook host is not allowed")

/-- Modelled from the spec: the webhook-guard step of `handle_process` — the
callback URL is sanitized before the job is created, and a guard rejection
fails the request with no job submitted. -/
def submitWithWebhook (cfg : WebhookConfig) (q : AsyncJobQueue)
    (job_id paper_id pdf_path : String) (u : Option WebhookUrl) :
    Except WebhookError (Job × AsyncJobQueue) :=
  match sanitize_webhook_url cfg u with
  | .error e => .error e
  | .ok (safeUrl, _pinned) =>
    .ok (q.submit_job job_id paper_id pdf_path (safeUrl.map (fun w => w.raw))
      none false)

/-- C1 (modelled from the spec): a webhook URL whose hostname is not
allow-listed and whose every resolved address is non-public is rejected by the
sanitizer, and the request fails before any job is created; a URL with at
least one public resolved address is accepted with a public resolved address
as the pinned IP and the URL — hence the original hostname used for TLS
validation — unchanged. -/
theorem C1_webhook_guard (cfg : WebhookConfig) (url : WebhookUrl)
    (q : AsyncJobQueue) (job_id paper_id pdf_path : String)
    (hlen : url.raw.length ≤ MAX_WEBHOOK_URL_LEN)
    (hscheme : url.scheme = "http" ∨ url.scheme = "https")
    (hcred : url.userinfo = none)
    (hallow : hostAllowlisted cfg.allowedHosts url.host = false)
    (hpriv : cfg.allowPrivateHosts = false) :
    ((∀ ip ∈ cfg.resolveIps url.host, ip.isPublic = false) →
      sanitize_webhook_url cfg (some url)
          = .error (.permissionError "webhook host is not allowed") ∧
      submitWithWebhook cfg q job_id paper_id pdf_path (some url)
          = .error (.permissionError "webhook host is not allowed")) ∧
    ((∃ ip ∈ cfg.resolveIps url.host, ip.isPublic = true) →
      ∃ ipa ∈ cfg.resolveIps url.host, ipa.isPublic = true ∧
        sanitize_webhook_url cfg (some url) = .ok (some url, some ipa.addr)) := by
  have hnl : ¬ MAX_WEBHOOK_URL_LEN < url.raw.length := by omega
  constructor
  · intro hprivate
    have hfind : (cfg.resolveIps url.host).find? (fun ip => ip.isPublic) = none := by
      rw [List.find?_eq_none]
      intro ip hip
      simp [hprivate ip hip]
    have hs : sanitize_webhook_url cfg (some url)
        = .error (.permissionError "webhook host is not allowed") := by
      simp [sanitize_webhook_url, hnl, hscheme, hcred, hallow, hpriv, hfind]
    exact ⟨hs, by simp [submitWithWebhook, hs]⟩
  · rintro ⟨ip0, hip0, hpub0⟩
    rcases hfind : (cfg.resolveIps url.host).find? (fun ip => ip.isPublic)
        with _ | ipa
    · exact absurd hpub0 (by simpa using List.find?_eq_none.mp hfind ip0 hip0)
    · refine ⟨ipa, List.mem_of_find?_eq_some hfind,
        by simpa using List.find?_some hfind, ?_⟩
      simp [sanitize_webhook_url, hnl, hscheme, hcred, hallow, hpriv, hfind]

def privateOnlyCfg : WebhookConfig :=
  { allowPrivateHosts := false, allowedHosts := [],
    resolveIps := fun _ => [{ addr := "10.0.0.4", isPublic := false }] }

def publicCfg : WebhookConfig :=
  { allowPrivateHosts := false, allowedHosts := [],
    resolveIps := fun _ => [{ addr := "93.184.216.34", isPublic := true }] }

def privateUrl : WebhookUrl :=
  { raw := "https://internal.example/cb", scheme := "https",
    userinfo := none, host := "internal.example" }

def publicUrl : WebhookUrl :=
  { raw := "https://example.com/cb", scheme := "https",
    userinfo := none, host := "example.com" }

def emptyJobQueue : AsyncJobQueue :=
  { jobs := [], job_history := [], max_workers := 2, scheduled := [] }

/-- Witness for C1: a host resolving only to a private address is rejected
with no job created; a host with one public resolved address is pinned to
it. -/
theorem C1_webhook_guard_witness :
    (sanitize_webhook_url privateOnlyCfg (some privateUrl)
      = .error (.permissionError "webhook host is not allowed")) ∧
    (∃ ipa ∈ publicCfg.resolveIps publicUrl.host, ipa.isPublic = true ∧
      sanitize_webhook_url publicCfg (some publicUrl)
        = .ok (some publicUrl, some ipa.addr)) := by
  constructor
  · exact ((C1_webhook_guard privateOnlyCfg privateUrl emptyJobQueue "j" "p" "/x.pdf"
      (by decide) (by decide) (by decide) (by decide) (by decide)).1
      (by decide)).1
  · exact (C1_webhook_guard publicCfg publicUrl emptyJobQueue "j" "p" "/x.pdf"
      (by decide) (by decide) (by decide) (by decide) (by decide)).2
      (by decide)

/-! ## Shared-secret authentication (claim C2)

The authentication gate (`SERVICE_API_KEY`, `AUTH_EXEMPT_PATHS`,
`_extract_api_key`, `_requires_auth`) is exercised by the repository's tests
but absent from the source copy; it is modelled here from the
specification. -/

def AUTH_EXEMPT_PATHS : List String := ["/health", "/status"]

/-- Modelled from the spec: extract the shared-secret credential from the
`X-API-Key` header or an `Authorization: Bearer` header. -/
def _extract_api_key (headers : List (String × String)) : Option String :=
  match assocFind headers "X-API-Key" with
  | some k => some k
  | none =>
    match assocFind headers "Authorization" with
    | some v => if pyStartsWith v "Bearer " then some (pyDropChars v 7) else none
    | none => none

/-- Modelled from the spec: authentication is required when a key is
configured and the path is not exempt. -/
def _requires_auth (apiKey : Option String) (exempt : List String)
    (path : String) : Bool :=
  apiKey.isSome && !(exempt.contains path)

/-- Modelled from the spec: the supplied credential matches the configured
shared secret. -/
def authHeaderOk (apiKey : Option String) (headers : List (String × String)) : Bool :=
  match apiKey with
  | none => true
  | some k => _extract_api_key headers == some k

structure SvcState where
  queue : AsyncJobQueue
  queries : List String
deriving DecidableEq, Repr

structure SvcRequest where
  path : String
  headers : List (String × String)
  paper_id : String
  pdf_path : String
  query : String
  new_job_id : String
deriving DecidableEq, Repr

/-- Modelled from the spec: the request dispatch with the authentication
gate — requests other than health/status must present the shared secret;
absence or mismatch yields 401 before any further processing. -/
def serviceDispatch (apiKey : Option String) (st : SvcState) (req : SvcRequest) :
    Nat × SvcState :=
  if _requires_auth apiKey AUTH_EXEMPT_PATHS req.path
      && !(authHeaderOk apiKey req.headers) then
    (401, st)
  else if req.path = "/process" then
    (202, { st with queue :=
      (st.queue.submit_job req.new_job_id req.paper_id req.pdf_path
        none none false).2 })
  else if req.path = "/query" then
    (200, { st with queries := st.queries ++ [req.query] })
  else if req.path = "/health" ∨ req.path = "/status" then (200, st)
  else (404, st)

/-- C2 (modelled from the spec): with a shared secret configured, a request to
a path other than the health/status endpoints that does not carry the correct
credential is answered 401 with the server state unchanged — no job is
created and no query is run. -/
theorem C2_auth_gate (k : String) (st : SvcState) (req : SvcRequest)
    (h1 : ¬ req.path = "/health") (h2 : ¬ req.path = "/status")
    (h3 : authHeaderOk (some k) req.headers = false) :
    serviceDispatch (some k) st req = (401, st) := by
  have hreq : _requires_auth (some k) AUTH_EXEMPT_PATHS req.path = true := by
    simp [_requires_auth, AUTH_EXEMPT_PATHS, h1, h2]
  simp [serviceDispatch, hreq, h3]

/-- Witness for C2: a `/query` request without the credential header yields
401 and leaves the state untouched. -/
theorem C2_auth_gate_witness :
    serviceDispatch (some "secret-key")
      { queue := emptyJobQueue, queries := [] }
      { path := "/query", headers := [], paper_id := "", pdf_path := "",
        query := "q", new_job_id := "x" }
      = (401, { queue := emptyJobQueue, queries := [] }) :=
  C2_auth_gate "secret-key"
    { queue := emptyJobQueue, queries := [] }
    { path := "/query", headers := [], paper_id := "", pdf_path := "",
      query := "q", new_job_id := "x" }
    (by decide) (by decide) (by decide)
